import Mathlib

/-!
Shallow embedding of the modal registry and close-negotiation state machine
of `src/core.ts` (vue-modal-core).

JS objects are modelled with an explicit heap: `St.heap` is the list of all
record objects ever allocated, and the registry `modalsMap` maps a modal id
to the heap address of its current record.  A suspended `closeModal` run
(one `await` per guard) is a `CloseTask` holding the heap address its closure
captured, so a stale negotiation keeps mutating the old object after a
reopen, exactly as the source closure does.

Modal ids, owner ids and guard ids (JS symbols) are `Nat`; a guard callback
is identified by its id and its behaviour by an environment
`outcome : Nat → GRes` giving the settled result of `fn()`:
`GRes.ok r` for a normal completion with value `r` (`none` models
`undefined`) and `GRes.err` for a throw or rejection.
-/

/-- Result of awaiting one close-guard callback. -/
inductive GRes where
  | ok : Option Bool → GRes
  | err : GRes
deriving DecidableEq, Repr

/-- One modal instance record (a `modalsMap` value in `core.ts`):
`props.visible`, the `style.zIndex` stacking hint, `meta.isClosing` and
`meta.closePromises` (owner id → guard-id list; owner groups in
first-insertion order, each owner list most-recently-registered first).
The rest of the prop bag is a key/value list. -/
structure Record where
  visible : Bool
  props : List (Nat × Nat)
  zIndex : Nat
  isClosing : Bool
  closePromises : List (Nat × List Nat)
deriving DecidableEq, Repr

instance : Inhabited Record :=
  ⟨{ visible := false, props := [], zIndex := 0, isClosing := false, closePromises := [] }⟩

/-- JS `Map.get` on an insertion-ordered association list. -/
def mLookup : List (Nat × Nat) → Nat → Option Nat
  | [], _ => none
  | p :: ps, k => if p.1 = k then some p.2 else mLookup ps k

/-- JS `Map.set`: an existing key keeps its position, a new key is appended. -/
def mSet : List (Nat × Nat) → Nat → Nat → List (Nat × Nat)
  | [], k, v => [(k, v)]
  | p :: ps, k, v => if p.1 = k then (k, v) :: ps else p :: mSet ps k v

/-- JS `Map.delete`. -/
def mDelete : List (Nat × Nat) → Nat → List (Nat × Nat)
  | [], _ => []
  | p :: ps, k => if p.1 = k then mDelete ps k else p :: mDelete ps k

/-- `closePromises` update in `addClosePromise` (core.ts 124-135): the new
guard is `unshift`ed onto its owner's list (last-registered-first per
owner); a new owner group is appended (owner groups in first-registration
order, by `Map` insertion order). -/
def cpAdd : List (Nat × List Nat) → Nat → Nat → List (Nat × List Nat)
  | [], owner, g => [(owner, [g])]
  | p :: ps, owner, g =>
    if p.1 = owner then (owner, g :: p.2) :: ps else p :: cpAdd ps owner g

/-- `closePromises.delete(componentId)` in `removeComponentPromises`. -/
def cpRemove : List (Nat × List Nat) → Nat → List (Nat × List Nat)
  | [], _ => []
  | p :: ps, owner => if p.1 = owner then cpRemove ps owner else p :: cpRemove ps owner

/-- `Array.from(modal.meta.closePromises.values()).flat()` (core.ts 154-155). -/
def flatGuards (cps : List (Nat × List Nat)) : List Nat :=
  (cps.map Prod.snd).flatten

/-- Read a heap address (a JS object reference dereference). -/
def hGet (h : List Record) (a : Nat) : Record :=
  h.getD a default

/-- Mutate the object at a heap address in place. -/
def hMod (h : List Record) (a : Nat) (f : Record → Record) : List Record :=
  h.set a (f (hGet h a))

/-- One `Object.assign`-style key update: existing keys keep their position,
new keys are appended. -/
def setKey : List (Nat × Nat) → Nat → Nat → List (Nat × Nat)
  | [], k, v => [(k, v)]
  | p :: ps, k, v => if p.1 = k then (k, v) :: ps else p :: setKey ps k v

/-- `Object.assign(target, source)` / object spread on the prop bag. -/
def assignProps (old next : List (Nat × Nat)) : List (Nat × Nat) :=
  next.foldl (fun acc p => setKey acc p.1 p.2) old

/-- A `closeModal` run suspended at an `await`: the modal id and record
reference its closure captured, and the guards not yet settled. -/
structure CloseTask where
  modalId : Nat
  addr : Nat
  pending : List Nat
deriving DecidableEq, Repr

/-- The mutable state of one modal context: the heap of record objects, the
registry (`modalsMap`, id → heap address), the open queue (`modalQueue`),
the suspended negotiations, and a counter of errors reported through
`console.error` at the negotiation boundary. -/
structure St where
  heap : List Record
  modalsMap : List (Nat × Nat)
  modalQueue : List Nat
  tasks : List CloseTask
  errCount : Nat
deriving DecidableEq, Repr

/-- `createModalContext` options that affect the core semantics. -/
structure Opts where
  baseZIndex : Nat
  allowMultiple : Bool
deriving DecidableEq, Repr

/-- The state of a fresh modal context. -/
def initSt : St :=
  { heap := [], modalsMap := [], modalQueue := [], tasks := [], errCount := 0 }

/-- `queue.splice(queue.indexOf(id), 1)` when present (core.ts 175-178):
remove the first occurrence only. -/
def removeFirst : List Nat → Nat → List Nat
  | [], _ => []
  | x :: xs, id => if x = id then xs else x :: removeFirst xs id

/-- The tail of `closeModal` after every guard allowed (core.ts 173-182):
the `modal.meta.isClosing` check on the captured record (the
stale-negotiation generation guard), then deletion from the registry and
removal of the first queue occurrence. -/
def completeClose (s : St) (id : Nat) (addr : Nat) : St × Bool :=
  if (hGet s.heap addr).isClosing then
    ({ s with modalsMap := mDelete s.modalsMap id,
              modalQueue := removeFirst s.modalQueue id }, true)
  else (s, false)

/-- The synchronous prefix of `closeModal` (core.ts 145-157): an async
function body runs synchronously up to its first `await`, so with at least
one guard the run suspends inside the loop and the remaining work becomes a
`CloseTask`; with no guards the whole body, including the final
`isClosing`-guarded deletion, runs at once and the result is returned. -/
def closeStart (s : St) (id : Nat) : St × Option Bool :=
  match mLookup s.modalsMap id with
  | none => (s, some false)
  | some addr =>
    if (hGet s.heap addr).isClosing then (s, some false)
    else
      let h1 := hMod s.heap addr (fun r => { r with visible := false, isClosing := true })
      let s1 := { s with heap := h1 }
      match flatGuards (hGet s1.heap addr).closePromises with
      | [] =>
        let c := completeClose s1 id addr
        (c.1, some c.2)
      | g :: gs =>
        ({ s1 with tasks := s1.tasks ++ [⟨id, addr, g :: gs⟩] }, none)

/-- Resume the `i`-th suspended negotiation at its pending `await`
(core.ts 158-182).  An explicit `false` restores the captured record
(`isClosing := false`, `visible := true`) and finishes with `false`; a
throw/rejection is caught at the negotiation boundary, clears `isClosing`
on the captured record (visibility deliberately not restored), counts one
reported error and finishes with `false`; otherwise the next guard is
awaited, or, after the last one, the `isClosing` generation check decides
whether the record is deleted. -/
def closeStep (outcome : Nat → GRes) (s : St) (i : Nat) : St × Option Bool :=
  match s.tasks.get? i with
  | none => (s, none)
  | some t =>
    match t.pending with
    | [] => (s, none)
    | g :: rest =>
      let s0 := { s with tasks := s.tasks.eraseIdx i }
      match outcome g with
      | GRes.ok (some false) =>
        let h1 := hMod s0.heap t.addr (fun r => { r with isClosing := false, visible := true })
        ({ s0 with heap := h1 }, some false)
      | GRes.err =>
        ({ s0 with heap := hMod s0.heap t.addr (fun r => { r with isClosing := false }),
                   errCount := s0.errCount + 1 }, some false)
      | GRes.ok _ =>
        match rest with
        | [] =>
          let c := completeClose s0 t.modalId t.addr
          (c.1, some c.2)
        | g2 :: gs2 =>
          ({ s with tasks := s.tasks.set i { t with pending := g2 :: gs2 } }, none)

/-- How the guard loop of core.ts 158-166 ends. -/
inductive GOut where
  | allowed
  | denied
  | errored
deriving DecidableEq, Repr

/-- The guard loop of core.ts 158-166 with the settled results in hand:
returns the guards actually invoked, in invocation order, and how the loop
ended (first explicit `false` short-circuits; a throw/rejection aborts). -/
def runGuards (outcome : Nat → GRes) : List Nat → List Nat × GOut
  | [] => ([], GOut.allowed)
  | g :: gs =>
    match outcome g with
    | GRes.ok (some false) => ([g], GOut.denied)
    | GRes.err => ([g], GOut.errored)
    | GRes.ok _ =>
      let r := runGuards outcome gs
      (g :: r.1, r.2)

/-- `closeModal` (core.ts 145-183) run to completion with nothing
interleaved between its suspension points.  Returns the final state, the
boolean result, and the guards whose callbacks were invoked, in order. -/
def closeModal (outcome : Nat → GRes) (s : St) (id : Nat) : St × Bool × List Nat :=
  match mLookup s.modalsMap id with
  | none => (s, false, [])
  | some addr =>
    if (hGet s.heap addr).isClosing then (s, false, [])
    else
      let h1 := hMod s.heap addr (fun r => { r with visible := false, isClosing := true })
      let s1 := { s with heap := h1 }
      let run := runGuards outcome (flatGuards (hGet s1.heap addr).closePromises)
      match run.2 with
      | GOut.denied =>
        let h2 := hMod s1.heap addr (fun r => { r with isClosing := false, visible := true })
        ({ s1 with heap := h2 }, false, run.1)
      | GOut.errored =>
        ({ s1 with heap := hMod s1.heap addr (fun r => { r with isClosing := false }),
                   errCount := s1.errCount + 1 }, false, run.1)
      | GOut.allowed =>
        let c := completeClose s1 id addr
        (c.1, c.2, run.1)

/-- `makeModal(...).close()` (core.ts 237-243): a registry lookup, then
`closeModal`, else `false`. -/
def closeFn (outcome : Nat → GRes) (s : St) (id : Nat) : St × Bool × List Nat :=
  match mLookup s.modalsMap id with
  | some _ => closeModal outcome s id
  | none => (s, false, [])

/-- `addClosePromise` (core.ts 124-135). -/
def addClosePromise (s : St) (modalId componentId g : Nat) : St :=
  match mLookup s.modalsMap modalId with
  | none => s
  | some addr =>
    let h1 := hMod s.heap addr (fun r => { r with closePromises := cpAdd r.closePromises componentId g })
    { s with heap := h1 }

/-- `removeComponentPromises` (core.ts 137-143). -/
def removeComponentPromises (s : St) (modalId componentId : Nat) : St :=
  match mLookup s.modalsMap modalId with
  | none => s
  | some addr =>
    let h1 := hMod s.heap addr (fun r => { r with closePromises := cpRemove r.closePromises componentId })
    { s with heap := h1 }

/-- `makeModal(...).isVisible()` (core.ts 188-191). -/
def isVisible (s : St) (id : Nat) : Bool :=
  match mLookup s.modalsMap id with
  | none => false
  | some addr => (hGet s.heap addr).visible

/-- The eviction block of `open` (core.ts 193-200): fire `closeModal` on the
most recently opened queue entry without awaiting it, so only its
synchronous prefix runs before `open` continues. -/
def evict (s : St) : St :=
  match s.modalQueue.getLast? with
  | none => s
  | some lastId =>
    match mLookup s.modalsMap lastId with
    | none => s
    | some _ => (closeStart s lastId).1

/-- Fresh-record creation in `open` (core.ts 212-233): the zIndex is
`baseZIndex + modalQueue.length` before the push, the id is appended to the
queue, and a new record object (`visible := true`, a fresh empty guard map)
is allocated and registered. -/
def createRecord (opts : Opts) (s : St) (id : Nat) (props : List (Nat × Nat)) : St :=
  { s with modalQueue := s.modalQueue ++ [id],
           modalsMap := mSet s.modalsMap id s.heap.length,
           heap := s.heap ++ [{ visible := true,
                                props := assignProps [] props,
                                zIndex := opts.baseZIndex + s.modalQueue.length,
                                isClosing := false,
                                closePromises := [] }] }

/-- `makeModal(...).open(props)` (core.ts 192-236).  After the un-awaited
eviction, an existing record gets the new props merged in place; if it is
not mid-close that is all, otherwise the in-flight close is cancelled
(`isClosing := false` on the old object), the registry entry deleted, and a
fresh record created. -/
def openModal (opts : Opts) (s : St) (id : Nat) (props : List (Nat × Nat)) : St :=
  let s := if !opts.allowMultiple && !s.modalQueue.isEmpty then evict s else s
  match mLookup s.modalsMap id with
  | none => createRecord opts s id props
  | some addr =>
    let h1 := hMod s.heap addr (fun r => { r with props := assignProps r.props props })
    let s1 := { s with heap := h1 }
    if (hGet s1.heap addr).isClosing = false then s1
    else
      let s2 := { s1 with heap := hMod s1.heap addr (fun r => { r with isClosing := false }),
                          modalsMap := mDelete s1.modalsMap id }
      createRecord opts s2 id props

/-- The observable operations on one modal context, with `resume i` the
scheduler delivering the settled result the `i`-th suspended negotiation is
awaiting. -/
inductive Ev where
  | openM : Nat → List (Nat × Nat) → Ev
  | closeReq : Nat → Ev
  | resume : Nat → Ev
  | addCP : Nat → Nat → Nat → Ev
  | removeCP : Nat → Nat → Ev
deriving DecidableEq, Repr

/-- One event against the context state. -/
def stepEv (opts : Opts) (outcome : Nat → GRes) (s : St) : Ev → St
  | Ev.openM id props => openModal opts s id props
  | Ev.closeReq id => (closeStart s id).1
  | Ev.resume i => (closeStep outcome s i).1
  | Ev.addCP modalId componentId g => addClosePromise s modalId componentId g
  | Ev.removeCP modalId componentId => removeComponentPromises s modalId componentId

/-- Run a sequence of events. -/
def execEvs (opts : Opts) (outcome : Nat → GRes) (s : St) (es : List Ev) : St :=
  es.foldl (stepEv opts outcome) s

/-! ### Basic lemmas about the embedded containers -/

theorem mLookup_mDelete_self (m : List (Nat × Nat)) (k : Nat) :
    mLookup (mDelete m k) k = none := by
  induction m with
  | nil => rfl
  | cons p ps ih =>
    by_cases h : p.1 = k
    · rw [mDelete, if_pos h]
      exact ih
    · rw [mDelete, if_neg h, mLookup, if_neg h]
      exact ih

theorem mLookup_mDelete_ne (m : List (Nat × Nat)) (j k : Nat) (hjk : j ≠ k) :
    mLookup (mDelete m k) j = mLookup m j := by
  induction m with
  | nil => rfl
  | cons p ps ih =>
    by_cases h : p.1 = k
    · have hpj : ¬ p.1 = j := by
        rw [h]
        exact fun hh => hjk hh.symm
      rw [mDelete, if_pos h, mLookup, if_neg hpj]
      exact ih
    · by_cases hj : p.1 = j
      · rw [mDelete, if_neg h, mLookup, if_pos hj, mLookup, if_pos hj]
      · rw [mDelete, if_neg h, mLookup, if_neg hj, mLookup, if_neg hj]
        exact ih

theorem mLookup_mSet_self (m : List (Nat × Nat)) (k v : Nat) :
    mLookup (mSet m k v) k = some v := by
  induction m with
  | nil => simp [mSet, mLookup]
  | cons p ps ih =>
    by_cases h : p.1 = k
    · rw [mSet, if_pos h, mLookup, if_pos rfl]
    · rw [mSet, if_neg h, mLookup, if_neg h]
      exact ih

theorem mLookup_mSet_ne (m : List (Nat × Nat)) (j k v : Nat) (hjk : j ≠ k) :
    mLookup (mSet m k v) j = mLookup m j := by
  have hkj : ¬ k = j := fun hh => hjk hh.symm
  induction m with
  | nil => simp [mSet, mLookup, hkj]
  | cons p ps ih =>
    by_cases h : p.1 = k
    · have hpj : ¬ p.1 = j := by
        rw [h]
        exact hkj
      rw [mSet, if_pos h, mLookup, if_neg hkj, mLookup, if_neg hpj]
    · by_cases hj : p.1 = j
      · rw [mSet, if_neg h, mLookup, if_pos hj, mLookup, if_pos hj]
      · rw [mSet, if_neg h, mLookup, if_neg hj, mLookup, if_neg hj]
        exact ih

theorem length_hMod (h : List Record) (a : Nat) (f : Record → Record) :
    (hMod h a f).length = h.length := by
  simp [hMod]

theorem hGet_hMod_self (h : List Record) (a : Nat) (f : Record → Record)
    (ha : a < h.length) : hGet (hMod h a f) a = f (hGet h a) := by
  simp [hMod, hGet, List.getD_eq_getElem?_getD, List.getElem?_set_eq_of_lt _ ha,
    List.getElem?_eq_getElem ha]

theorem hGet_hMod_ne (h : List Record) (a b : Nat) (f : Record → Record)
    (hne : b ≠ a) : hGet (hMod h a f) b = hGet h b := by
  simp [hMod, hGet, List.getD_eq_getElem?_getD, List.getElem?_set_ne (fun hh => hne hh.symm)]

theorem hGet_append_self (h : List Record) (r : Record) :
    hGet (h ++ [r]) h.length = r := by
  simp [hGet, List.getD_eq_getElem?_getD, List.getElem?_append_right (Nat.le_refl _)]

theorem hGet_append_lt (h : List Record) (r : Record) (a : Nat) (ha : a < h.length) :
    hGet (h ++ [r]) a = hGet h a := by
  simp [hGet, List.getD_eq_getElem?_getD, List.getElem?_append_left ha]

theorem count_removeFirst (q : List Nat) (id : Nat) :
    (removeFirst q id).count id = q.count id - 1 := by
  induction q with
  | nil => rfl
  | cons x xs ih =>
    by_cases h : x = id
    · simp [removeFirst, h, List.count_cons_self]
    · simp [removeFirst, h, List.count_cons_of_ne (fun hh => h hh.symm), ih]

/-- A settled guard result that neither denies (`ok (some false)`) nor
errs, i.e. one the loop of core.ts 158-166 continues past. -/
def allowsB : GRes → Bool
  | GRes.ok (some false) => false
  | GRes.err => false
  | _ => true

theorem runGuards_cons_allow (outcome : Nat → GRes) (g : Nat) (gs : List Nat)
    (h : allowsB (outcome g) = true) :
    runGuards outcome (g :: gs)
      = (g :: (runGuards outcome gs).1, (runGuards outcome gs).2) := by
  cases ho : outcome g with
  | err =>
    rw [ho] at h
    simp [allowsB] at h
  | ok r =>
    cases r with
    | none => simp [runGuards, ho]
    | some b =>
      cases b with
      | true => simp [runGuards, ho]
      | false =>
        rw [ho] at h
        simp [allowsB] at h

theorem runGuards_append_allow (outcome : Nat → GRes) (pre rest : List Nat)
    (h : ∀ x ∈ pre, allowsB (outcome x) = true) :
    runGuards outcome (pre ++ rest)
      = (pre ++ (runGuards outcome rest).1, (runGuards outcome rest).2) := by
  induction pre with
  | nil => simp
  | cons g gs ih =>
    have hg := h g (List.mem_cons_self g gs)
    have hgs : ∀ x ∈ gs, allowsB (outcome x) = true :=
      fun x hx => h x (List.mem_cons_of_mem _ hx)
    rw [List.cons_append, runGuards_cons_allow outcome g (gs ++ rest) hg, ih hgs]
    simp

theorem runGuards_all_allow (outcome : Nat → GRes) (gs : List Nat)
    (h : ∀ x ∈ gs, allowsB (outcome x) = true) :
    runGuards outcome gs = (gs, GOut.allowed) := by
  have happ := runGuards_append_allow outcome gs [] h
  simpa [runGuards] using happ

theorem runGuards_denied (outcome : Nat → GRes) (pre : List Nat) (g : Nat) (post : List Nat)
    (h : ∀ x ∈ pre, allowsB (outcome x) = true)
    (hg : outcome g = GRes.ok (some false)) :
    runGuards outcome (pre ++ g :: post) = (pre ++ [g], GOut.denied) := by
  rw [runGuards_append_allow outcome pre _ h]
  simp [runGuards, hg]

theorem runGuards_errored (outcome : Nat → GRes) (pre : List Nat) (g : Nat) (post : List Nat)
    (h : ∀ x ∈ pre, allowsB (outcome x) = true)
    (hg : outcome g = GRes.err) :
    runGuards outcome (pre ++ g :: post) = (pre ++ [g], GOut.errored) := by
  rw [runGuards_append_allow outcome pre _ h]
  simp [runGuards, hg]

/-- Unfold `closeModal` once past its registry lookup and `isClosing` guard,
resolving the final `completeClose` generation check (trivially passed in an
uninterleaved run). -/
theorem closeModal_eq (outcome : Nat → GRes) (s : St) (id addr : Nat)
    (hm : mLookup s.modalsMap id = some addr) (ha : addr < s.heap.length)
    (hc : (hGet s.heap addr).isClosing = false) :
    closeModal outcome s id =
      (let h1 := hMod s.heap addr (fun r => { r with visible := false, isClosing := true })
       let run := runGuards outcome (flatGuards (hGet s.heap addr).closePromises)
       match run.2 with
       | GOut.denied =>
         ({ s with heap := hMod h1 addr (fun r => { r with isClosing := false, visible := true }) },
          false, run.1)
       | GOut.errored =>
         ({ s with heap := hMod h1 addr (fun r => { r with isClosing := false }),
                   errCount := s.errCount + 1 }, false, run.1)
       | GOut.allowed =>
         ({ s with heap := h1,
                   modalsMap := mDelete s.modalsMap id,
                   modalQueue := removeFirst s.modalQueue id }, true, run.1)) := by
  have hrec : hGet (hMod s.heap addr (fun r => { r with visible := false, isClosing := true })) addr
      = { hGet s.heap addr with visible := false, isClosing := true } :=
    hGet_hMod_self _ _ _ ha
  simp only [closeModal, hm, hc, Bool.false_eq_true, if_false, hrec, completeClose]
  rfl

theorem closeModal_denied_eq (outcome : Nat → GRes) (s : St) (id addr g : Nat)
    (pre post : List Nat)
    (hm : mLookup s.modalsMap id = some addr) (ha : addr < s.heap.length)
    (hc : (hGet s.heap addr).isClosing = false)
    (hg : flatGuards (hGet s.heap addr).closePromises = pre ++ g :: post)
    (hpre : ∀ x ∈ pre, allowsB (outcome x) = true)
    (hden : outcome g = GRes.ok (some false)) :
    closeModal outcome s id =
      ({ s with heap := hMod (hMod s.heap addr (fun r => { r with visible := false, isClosing := true }))
                  addr (fun r => { r with isClosing := false, visible := true }) },
       false, pre ++ [g]) := by
  rw [closeModal_eq outcome s id addr hm ha hc, hg,
    runGuards_denied outcome pre g post hpre hden]

theorem closeModal_errored_eq (outcome : Nat → GRes) (s : St) (id addr g : Nat)
    (pre post : List Nat)
    (hm : mLookup s.modalsMap id = some addr) (ha : addr < s.heap.length)
    (hc : (hGet s.heap addr).isClosing = false)
    (hg : flatGuards (hGet s.heap addr).closePromises = pre ++ g :: post)
    (hpre : ∀ x ∈ pre, allowsB (outcome x) = true)
    (herr : outcome g = GRes.err) :
    closeModal outcome s id =
      ({ s with heap := hMod (hMod s.heap addr (fun r => { r with visible := false, isClosing := true }))
                  addr (fun r => { r with isClosing := false }),
                errCount := s.errCount + 1 },
       false, pre ++ [g]) := by
  rw [closeModal_eq outcome s id addr hm ha hc, hg,
    runGuards_errored outcome pre g post hpre herr]

theorem closeModal_allowed_eq (outcome : Nat → GRes) (s : St) (id addr : Nat)
    (hm : mLookup s.modalsMap id = some addr) (ha : addr < s.heap.length)
    (hc : (hGet s.heap addr).isClosing = false)
    (hall : ∀ x ∈ flatGuards (hGet s.heap addr).closePromises, allowsB (outcome x) = true) :
    closeModal outcome s id =
      ({ s with heap := hMod s.heap addr (fun r => { r with visible := false, isClosing := true }),
                modalsMap := mDelete s.modalsMap id,
                modalQueue := removeFirst s.modalQueue id },
       true, flatGuards (hGet s.heap addr).closePromises) := by
  rw [closeModal_eq outcome s id addr hm ha hc,
    runGuards_all_allow outcome _ hall]

theorem addClosePromise_modalsMap (s : St) (modalId componentId g : Nat) :
    (addClosePromise s modalId componentId g).modalsMap = s.modalsMap := by
  unfold addClosePromise
  cases hm : mLookup s.modalsMap modalId <;> rfl

theorem addClosePromise_queue (s : St) (modalId componentId g : Nat) :
    (addClosePromise s modalId componentId g).modalQueue = s.modalQueue := by
  unfold addClosePromise
  cases hm : mLookup s.modalsMap modalId <;> rfl

theorem addClosePromise_heap_length (s : St) (modalId componentId g : Nat) :
    (addClosePromise s modalId componentId g).heap.length = s.heap.length := by
  unfold addClosePromise
  cases hm : mLookup s.modalsMap modalId
  · rfl
  · simp [length_hMod]

theorem hGet_addClosePromise_self (s : St) (modalId componentId g addr : Nat)
    (hm : mLookup s.modalsMap modalId = some addr) (ha : addr < s.heap.length) :
    hGet (addClosePromise s modalId componentId g).heap addr
      = { hGet s.heap addr with
          closePromises := cpAdd (hGet s.heap addr).closePromises componentId g } := by
  unfold addClosePromise
  rw [hm]
  exact hGet_hMod_self s.heap addr
    (fun r => { r with closePromises := cpAdd r.closePromises componentId g }) ha

/-! ### Claims about an uninterleaved `closeModal` run -/

/-- C4: if during `closeModal id` some guard returns `false`, then guards
after it in evaluation order are never invoked, the record is restored to
`isClosing = false` and `visible = true`, `closeModal` resolves to `false`,
the record remains in the registry, and `isVisible id` returns `true`
afterwards. -/
theorem guard_denial_halts
    (outcome : Nat → GRes) (s : St) (id addr g : Nat) (pre post : List Nat)
    (hm : mLookup s.modalsMap id = some addr) (ha : addr < s.heap.length)
    (hc : (hGet s.heap addr).isClosing = false)
    (hg : flatGuards (hGet s.heap addr).closePromises = pre ++ g :: post)
    (hpre : ∀ x ∈ pre, allowsB (outcome x) = true)
    (hden : outcome g = GRes.ok (some false)) :
    (closeModal outcome s id).2.1 = false
    ∧ (closeModal outcome s id).2.2 = pre ++ [g]
    ∧ mLookup (closeModal outcome s id).1.modalsMap id = some addr
    ∧ (hGet (closeModal outcome s id).1.heap addr).isClosing = false
    ∧ (hGet (closeModal outcome s id).1.heap addr).visible = true
    ∧ isVisible (closeModal outcome s id).1 id = true := by
  have hkey := closeModal_denied_eq outcome s id addr g pre post hm ha hc hg hpre hden
  have ha1 : addr < (hMod s.heap addr
      (fun r => { r with visible := false, isClosing := true })).length := by
    rw [length_hMod]
    exact ha
  have hrec : hGet (hMod (hMod s.heap addr (fun r => { r with visible := false, isClosing := true }))
        addr (fun r => { r with isClosing := false, visible := true })) addr
      = { hGet (hMod s.heap addr (fun r => { r with visible := false, isClosing := true })) addr with
          isClosing := false, visible := true } :=
    hGet_hMod_self _ _ _ ha1
  refine ⟨?_, ?_, ?_, ?_, ?_, ?_⟩
  · rw [hkey]
  · rw [hkey]
  · simp only [hkey]
    exact hm
  · simp only [hkey]
    rw [hrec]
  · simp only [hkey]
    rw [hrec]
  · simp only [hkey, isVisible, hm]
    rw [hrec]

/-- C5: if during `closeModal id` a guard throws or its future rejects, the
error is caught at the negotiation boundary and reported (the error counter
grows), guards after it are never invoked, `isClosing` is restored to
`false` but `visible` stays `false`, the record stays registered, and
`closeModal` resolves to `false` instead of propagating the error. -/
theorem guard_error_aborts
    (outcome : Nat → GRes) (s : St) (id addr g : Nat) (pre post : List Nat)
    (hm : mLookup s.modalsMap id = some addr) (ha : addr < s.heap.length)
    (hc : (hGet s.heap addr).isClosing = false)
    (hg : flatGuards (hGet s.heap addr).closePromises = pre ++ g :: post)
    (hpre : ∀ x ∈ pre, allowsB (outcome x) = true)
    (herr : outcome g = GRes.err) :
    (closeModal outcome s id).2.1 = false
    ∧ (closeModal outcome s id).2.2 = pre ++ [g]
    ∧ mLookup (closeModal outcome s id).1.modalsMap id = some addr
    ∧ (hGet (closeModal outcome s id).1.heap addr).isClosing = false
    ∧ (hGet (closeModal outcome s id).1.heap addr).visible = false
    ∧ (closeModal outcome s id).1.errCount = s.errCount + 1 := by
  have hkey := closeModal_errored_eq outcome s id addr g pre post hm ha hc hg hpre herr
  have ha1 : addr < (hMod s.heap addr
      (fun r => { r with visible := false, isClosing := true })).length := by
    rw [length_hMod]
    exact ha
  have hrec : hGet (hMod (hMod s.heap addr (fun r => { r with visible := false, isClosing := true }))
        addr (fun r => { r with isClosing := false })) addr
      = { hGet (hMod s.heap addr (fun r => { r with visible := false, isClosing := true })) addr with
          isClosing := false } :=
    hGet_hMod_self _ _ _ ha1
  have hrec0 : hGet (hMod s.heap addr (fun r => { r with visible := false, isClosing := true })) addr
      = { hGet s.heap addr with visible := false, isClosing := true } :=
    hGet_hMod_self _ _ _ ha
  refine ⟨?_, ?_, ?_, ?_, ?_, ?_⟩
  · rw [hkey]
  · rw [hkey]
  · simp only [hkey]
    exact hm
  · simp only [hkey]
    rw [hrec]
  · simp only [hkey]
    rw [hrec, hrec0]
  · simp only [hkey]

/-- C6: if every guard of modal `id` settles with `true` or no explicit
value (`undefined`), `closeModal id` deletes the record from the registry,
removes `id` from the open queue, and resolves to `true`; when `id` was
queued at most once it is afterwards absent from both structures. -/
theorem all_guards_allow_closes
    (outcome : Nat → GRes) (s : St) (id addr : Nat)
    (hm : mLookup s.modalsMap id = some addr) (ha : addr < s.heap.length)
    (hc : (hGet s.heap addr).isClosing = false)
    (hall : ∀ x ∈ flatGuards (hGet s.heap addr).closePromises,
        outcome x = GRes.ok (some true) ∨ outcome x = GRes.ok none)
    (hq : s.modalQueue.count id ≤ 1) :
    (closeModal outcome s id).2.1 = true
    ∧ (closeModal outcome s id).1.modalsMap = mDelete s.modalsMap id
    ∧ (closeModal outcome s id).1.modalQueue = removeFirst s.modalQueue id
    ∧ mLookup (closeModal outcome s id).1.modalsMap id = none
    ∧ id ∉ (closeModal outcome s id).1.modalQueue := by
  have hallB : ∀ x ∈ flatGuards (hGet s.heap addr).closePromises, allowsB (outcome x) = true := by
    intro x hx
    rcases hall x hx with h | h <;> simp [allowsB, h]
  have hkey := closeModal_allowed_eq outcome s id addr hm ha hc hallB
  refine ⟨?_, ?_, ?_, ?_, ?_⟩
  · rw [hkey]
  · rw [hkey]
  · rw [hkey]
  · simp only [hkey]
    exact mLookup_mDelete_self _ _
  · simp only [hkey]
    have hcnt := count_removeFirst s.modalQueue id
    have hz : (removeFirst s.modalQueue id).count id = 0 := by omega
    exact List.count_eq_zero.mp hz

/-- C7: `closeModal id` returns `false` immediately, with no state change
and no guard invoked, when no record exists for `id` or the record already
has `isClosing = true`; `makeModal(...).close()` behaves the same, so a
second close after a successful one returns `false`. -/
theorem close_noop_when_missing_or_closing
    (outcome : Nat → GRes) (s : St) (id : Nat)
    (h : mLookup s.modalsMap id = none
        ∨ ∃ addr, mLookup s.modalsMap id = some addr ∧ (hGet s.heap addr).isClosing = true) :
    closeModal outcome s id = (s, false, []) ∧ closeFn outcome s id = (s, false, []) := by
  rcases h with h | ⟨addr, hm, hc⟩
  · exact ⟨by simp [closeModal, h], by simp [closeFn, h]⟩
  · exact ⟨by simp [closeModal, hm, hc], by simp [closeFn, hm, closeModal, hc]⟩

/-- C1: with owners A (guards a1 then a2) and B (guard b1) registered in
that order against a modal whose guard map started empty, the negotiation
collects the guards in the order a2, a1, b1 and `closeModal` invokes them
in exactly that order. -/
theorem guard_evaluation_order
    (outcome : Nat → GRes) (s : St) (id addr A B a1 a2 b1 : Nat)
    (hm : mLookup s.modalsMap id = some addr) (ha : addr < s.heap.length)
    (hc : (hGet s.heap addr).isClosing = false)
    (hcp : (hGet s.heap addr).closePromises = [])
    (hAB : A ≠ B)
    (hx1 : allowsB (outcome a2) = true) (hx2 : allowsB (outcome a1) = true)
    (hx3 : allowsB (outcome b1) = true) :
    flatGuards (hGet (addClosePromise (addClosePromise (addClosePromise s id A a1) id A a2)
        id B b1).heap addr).closePromises = [a2, a1, b1]
    ∧ (closeModal outcome (addClosePromise (addClosePromise (addClosePromise s id A a1) id A a2)
        id B b1) id).2.2 = [a2, a1, b1] := by
  have hm1 : mLookup (addClosePromise s id A a1).modalsMap id = some addr := by
    rw [addClosePromise_modalsMap]
    exact hm
  have ha1 : addr < (addClosePromise s id A a1).heap.length := by
    rw [addClosePromise_heap_length]
    exact ha
  have hr1 := hGet_addClosePromise_self s id A a1 addr hm ha
  have hm2 : mLookup (addClosePromise (addClosePromise s id A a1) id A a2).modalsMap id = some addr := by
    rw [addClosePromise_modalsMap]
    exact hm1
  have ha2 : addr < (addClosePromise (addClosePromise s id A a1) id A a2).heap.length := by
    rw [addClosePromise_heap_length]
    exact ha1
  have hr2 := hGet_addClosePromise_self (addClosePromise s id A a1) id A a2 addr hm1 ha1
  have hm3 : mLookup (addClosePromise (addClosePromise (addClosePromise s id A a1) id A a2)
      id B b1).modalsMap id = some addr := by
    rw [addClosePromise_modalsMap]
    exact hm2
  have ha3 : addr < (addClosePromise (addClosePromise (addClosePromise s id A a1) id A a2)
      id B b1).heap.length := by
    rw [addClosePromise_heap_length]
    exact ha2
  have hr3 := hGet_addClosePromise_self (addClosePromise (addClosePromise s id A a1) id A a2)
    id B b1 addr hm2 ha2
  have hcp3 : (hGet (addClosePromise (addClosePromise (addClosePromise s id A a1) id A a2)
      id B b1).heap addr).closePromises = [(A, [a2, a1]), (B, [b1])] := by
    rw [hr3]
    simp only [hr2, hr1]
    simp [hcp, cpAdd, hAB]
  have hc3 : (hGet (addClosePromise (addClosePromise (addClosePromise s id A a1) id A a2)
      id B b1).heap addr).isClosing = false := by
    rw [hr3]
    simp only [hr2, hr1]
    exact hc
  have hfg : flatGuards (hGet (addClosePromise (addClosePromise (addClosePromise s id A a1) id A a2)
      id B b1).heap addr).closePromises = [a2, a1, b1] := by
    rw [hcp3]
    simp [flatGuards]
  refine ⟨hfg, ?_⟩
  have hallB : ∀ x ∈ flatGuards (hGet (addClosePromise (addClosePromise (addClosePromise s id A a1)
      id A a2) id B b1).heap addr).closePromises, allowsB (outcome x) = true := by
    rw [hfg]
    intro x hx
    simp only [List.mem_cons, List.not_mem_nil, or_false] at hx
    rcases hx with rfl | rfl | rfl
    · exact hx1
    · exact hx2
    · exact hx3
  have hkey := closeModal_allowed_eq outcome _ id addr hm3 ha3 hc3 hallB
  rw [hkey]
  exact hfg

/-! ### Concrete fixtures for the witnesses -/

/-- Every guard settles with `undefined`. -/
def owAllow : Nat → GRes := fun _ => GRes.ok none

/-- Guard 6 returns `false`, everything else settles with `undefined`. -/
def owDeny6 : Nat → GRes := fun g => if g = 6 then GRes.ok (some false) else GRes.ok none

/-- Guard 6 throws, everything else settles with `undefined`. -/
def owThrow6 : Nat → GRes := fun g => if g = 6 then GRes.err else GRes.ok none

/-- A context in which modal 1 is open with no guards. -/
def sOpen1 : St := execEvs ⟨1000, true⟩ owAllow initSt [Ev.openM 1 []]

/-- A context in which modal 1 is open with guards 5 then 6 registered by
owner 7 (so evaluation order is 6 then 5). -/
def sTwoGuards : St :=
  execEvs ⟨1000, true⟩ owAllow initSt [Ev.openM 1 [], Ev.addCP 1 7 5, Ev.addCP 1 7 6]

theorem guard_evaluation_order_witness :
    flatGuards (hGet (addClosePromise (addClosePromise (addClosePromise sOpen1 1 7 11) 1 7 12)
        1 8 13).heap 0).closePromises = [12, 11, 13]
    ∧ (closeModal owAllow (addClosePromise (addClosePromise (addClosePromise sOpen1 1 7 11) 1 7 12)
        1 8 13) 1).2.2 = [12, 11, 13] :=
  guard_evaluation_order owAllow sOpen1 1 0 7 8 11 12 13 (by decide) (by decide) (by decide)
    (by decide) (by decide) (by decide) (by decide) (by decide)

theorem guard_denial_halts_witness :
    (closeModal owDeny6 sTwoGuards 1).2.1 = false
    ∧ (closeModal owDeny6 sTwoGuards 1).2.2 = [6]
    ∧ mLookup (closeModal owDeny6 sTwoGuards 1).1.modalsMap 1 = some 0
    ∧ (hGet (closeModal owDeny6 sTwoGuards 1).1.heap 0).isClosing = false
    ∧ (hGet (closeModal owDeny6 sTwoGuards 1).1.heap 0).visible = true
    ∧ isVisible (closeModal owDeny6 sTwoGuards 1).1 1 = true :=
  guard_denial_halts owDeny6 sTwoGuards 1 0 6 [] [5] (by decide) (by decide) (by decide)
    (by decide) (by decide) (by decide)

theorem guard_error_aborts_witness :
    (closeModal owThrow6 sTwoGuards 1).2.1 = false
    ∧ (closeModal owThrow6 sTwoGuards 1).2.2 = [6]
    ∧ mLookup (closeModal owThrow6 sTwoGuards 1).1.modalsMap 1 = some 0
    ∧ (hGet (closeModal owThrow6 sTwoGuards 1).1.heap 0).isClosing = false
    ∧ (hGet (closeModal owThrow6 sTwoGuards 1).1.heap 0).visible = false
    ∧ (closeModal owThrow6 sTwoGuards 1).1.errCount = sTwoGuards.errCount + 1 :=
  guard_error_aborts owThrow6 sTwoGuards 1 0 6 [] [5] (by decide) (by decide) (by decide)
    (by decide) (by decide) (by decide)

theorem all_guards_allow_closes_witness :
    (closeModal owAllow sTwoGuards 1).2.1 = true
    ∧ (closeModal owAllow sTwoGuards 1).1.modalsMap = mDelete sTwoGuards.modalsMap 1
    ∧ (closeModal owAllow sTwoGuards 1).1.modalQueue = removeFirst sTwoGuards.modalQueue 1
    ∧ mLookup (closeModal owAllow sTwoGuards 1).1.modalsMap 1 = none
    ∧ 1 ∉ (closeModal owAllow sTwoGuards 1).1.modalQueue :=
  all_guards_allow_closes owAllow sTwoGuards 1 0 (by decide) (by decide) (by decide)
    (by decide) (by decide)

theorem close_noop_witness :
    closeModal owAllow initSt 1 = (initSt, false, [])
    ∧ closeFn owAllow initSt 1 = (initSt, false, []) :=
  close_noop_when_missing_or_closing owAllow initSt 1 (Or.inl (by decide))

/-! ### Reopen racing an in-flight close -/

/-- Shared analysis of a reopen racing a suspended close: the state after
`open` on a mid-close identity, and the state after the stale negotiation's
pending guard settles with an arbitrary result. -/
theorem reopen_state_spec
    (opts : Opts) (outcome : Nat → GRes) (s : St) (id addr g : Nat) (p2 : List (Nat × Nat))
    (hmu : opts.allowMultiple = true)
    (hm : mLookup s.modalsMap id = some addr) (ha : addr < s.heap.length)
    (hc : (hGet s.heap addr).isClosing = false)
    (hg : flatGuards (hGet s.heap addr).closePromises = [g])
    (ht : s.tasks = []) :
    mLookup (openModal opts (closeStart s id).1 id p2).modalsMap id = some s.heap.length
    ∧ hGet (openModal opts (closeStart s id).1 id p2).heap s.heap.length
        = { visible := true, props := assignProps [] p2,
            zIndex := opts.baseZIndex + s.modalQueue.length,
            isClosing := false, closePromises := [] }
    ∧ (openModal opts (closeStart s id).1 id p2).modalQueue = s.modalQueue ++ [id]
    ∧ mLookup ((closeStep outcome (openModal opts (closeStart s id).1 id p2) 0).1).modalsMap id
        = some s.heap.length
    ∧ hGet ((closeStep outcome (openModal opts (closeStart s id).1 id p2) 0).1).heap s.heap.length
        = { visible := true, props := assignProps [] p2,
            zIndex := opts.baseZIndex + s.modalQueue.length,
            isClosing := false, closePromises := [] }
    ∧ ((closeStep outcome (openModal opts (closeStart s id).1 id p2) 0).1).modalQueue
        = s.modalQueue ++ [id]
    ∧ ((closeStep outcome (openModal opts (closeStart s id).1 id p2) 0).1).heap.length
        = s.heap.length + 1 := by
  have hrec1 : hGet (hMod s.heap addr (fun r => { r with visible := false, isClosing := true })) addr
      = { hGet s.heap addr with visible := false, isClosing := true } := hGet_hMod_self _ _ _ ha
  have hs1 : closeStart s id
      = ({ s with heap := hMod s.heap addr (fun r => { r with visible := false, isClosing := true }),
                  tasks := s.tasks ++ [⟨id, addr, [g]⟩] }, none) := by
    simp only [closeStart, hm, hc, Bool.false_eq_true, if_false, hrec1]
    rw [hg]
  have ha1 : addr < (hMod s.heap addr
      (fun r => { r with visible := false, isClosing := true })).length := by
    rw [length_hMod]
    exact ha
  have hrec2 : hGet (hMod (hMod s.heap addr (fun r => { r with visible := false, isClosing := true }))
        addr (fun r => { r with props := assignProps r.props p2 })) addr
      = { hGet (hMod s.heap addr (fun r => { r with visible := false, isClosing := true })) addr with
          props := assignProps (hGet (hMod s.heap addr
            (fun r => { r with visible := false, isClosing := true })) addr).props p2 } :=
    hGet_hMod_self _ _ _ ha1
  have hs2 : openModal opts (closeStart s id).1 id p2
      = { heap := hMod (hMod (hMod s.heap addr (fun r => { r with visible := false, isClosing := true }))
              addr (fun r => { r with props := assignProps r.props p2 }))
              addr (fun r => { r with isClosing := false })
            ++ [{ visible := true, props := assignProps [] p2,
                  zIndex := opts.baseZIndex + s.modalQueue.length,
                  isClosing := false, closePromises := [] }],
          modalsMap := mSet (mDelete s.modalsMap id) id s.heap.length,
          modalQueue := s.modalQueue ++ [id],
          tasks := [⟨id, addr, [g]⟩],
          errCount := s.errCount } := by
    rw [hs1]
    simp only [openModal, hmu, Bool.not_true, Bool.false_and, Bool.false_eq_true, if_false,
      hm, hrec2, hrec1, Bool.true_eq_false, createRecord, ht, length_hMod, List.nil_append]
  set nr : Record := { visible := true, props := assignProps [] p2, zIndex := opts.baseZIndex + s.modalQueue.length, isClosing := false, closePromises := [] } with hnr
  set hb : List Record := hMod (hMod (hMod s.heap addr
      (fun r => { r with visible := false, isClosing := true }))
      addr (fun r => { r with props := assignProps r.props p2 }))
      addr (fun r => { r with isClosing := false }) with hhb
  have hlen2 : hb.length = s.heap.length := by
    rw [hhb, length_hMod, length_hMod, length_hMod]
  have hnew : hGet (hb ++ [nr]) s.heap.length = nr := by
    have happ := hGet_append_self hb nr
    rwa [hlen2] at happ
  have hne : s.heap.length ≠ addr := ne_of_gt ha
  have hab : addr < hb.length := by
    rw [hlen2]
    exact ha
  have hab2 : addr < (hMod (hMod s.heap addr
      (fun r => { r with visible := false, isClosing := true }))
      addr (fun r => { r with props := assignProps r.props p2 })).length := by
    rw [length_hMod, length_hMod]
    exact ha
  have hstale : (hGet (hb ++ [nr]) addr).isClosing = false := by
    rw [hGet_append_lt hb nr addr hab, hhb, hGet_hMod_self _ _ _ hab2]
  have hlook : mLookup (mSet (mDelete s.modalsMap id) id s.heap.length) id = some s.heap.length :=
    mLookup_mSet_self _ _ _
  have hlen3 : (hb ++ [nr]).length = s.heap.length + 1 := by
    rw [List.length_append, hlen2]
    rfl
  refine ⟨?_, ?_, ?_, ?_, ?_, ?_, ?_⟩
  · rw [hs2]
    exact hlook
  · simp only [hs2]
    exact hnew
  · rw [hs2]
  · rw [hs2]
    cases ho : outcome g with
    | err =>
      simp only [closeStep, List.get?_cons_zero, ho]
      exact hlook
    | ok r =>
      cases r with
      | none =>
        simp only [closeStep, List.get?_cons_zero, ho, completeClose, hstale, Bool.false_eq_true, if_false]
        exact hlook
      | some b =>
        cases b with
        | false =>
          simp only [closeStep, List.get?_cons_zero, ho]
          exact hlook
        | true =>
          simp only [closeStep, List.get?_cons_zero, ho, completeClose, hstale, Bool.false_eq_true, if_false]
          exact hlook
  · rw [hs2]
    cases ho : outcome g with
    | err =>
      simp only [closeStep, List.get?_cons_zero, ho]
      rw [hGet_hMod_ne _ _ _ _ hne]
      exact hnew
    | ok r =>
      cases r with
      | none =>
        simp only [closeStep, List.get?_cons_zero, ho, completeClose, hstale, Bool.false_eq_true, if_false]
        exact hnew
      | some b =>
        cases b with
        | false =>
          simp only [closeStep, List.get?_cons_zero, ho]
          rw [hGet_hMod_ne _ _ _ _ hne]
          exact hnew
        | true =>
          simp only [closeStep, List.get?_cons_zero, ho, completeClose, hstale, Bool.false_eq_true, if_false]
          exact hnew
  · rw [hs2]
    cases ho : outcome g with
    | err => simp only [closeStep, List.get?_cons_zero, ho]
    | ok r =>
      cases r with
      | none => simp only [closeStep, List.get?_cons_zero, ho, completeClose, hstale, Bool.false_eq_true, if_false]
      | some b =>
        cases b with
        | false => simp only [closeStep, List.get?_cons_zero, ho]
        | true => simp only [closeStep, List.get?_cons_zero, ho, completeClose, hstale, Bool.false_eq_true, if_false]
  · rw [hs2]
    cases ho : outcome g with
    | err =>
      simp only [closeStep, List.get?_cons_zero, ho]
      rw [length_hMod]
      exact hlen3
    | ok r =>
      cases r with
      | none =>
        simp only [closeStep, List.get?_cons_zero, ho, completeClose, hstale, Bool.false_eq_true, if_false]
        exact hlen3
      | some b =>
        cases b with
        | false =>
          simp only [closeStep, List.get?_cons_zero, ho]
          rw [length_hMod]
          exact hlen3
        | true =>
          simp only [closeStep, List.get?_cons_zero, ho, completeClose, hstale, Bool.false_eq_true, if_false]
          exact hlen3

/-- C2: if `open(id, props)` is called while id's record is mid-close
(`isClosing = true`, a guard suspended), the close is cancelled and the
record re-created fresh: afterwards the record is registered (at a new heap
address), visible, `isClosing = false`, its props are exactly the new
call's, its guard map is empty, and the id is appended anew to the open
queue; and the stale negotiation's eventual resolution — allow, deny or
error — neither deletes nor mutates the new record. -/
theorem reopen_during_close
    (opts : Opts) (outcome : Nat → GRes) (s : St) (id addr g : Nat) (p2 : List (Nat × Nat))
    (hmu : opts.allowMultiple = true)
    (hm : mLookup s.modalsMap id = some addr) (ha : addr < s.heap.length)
    (hc : (hGet s.heap addr).isClosing = false)
    (hg : flatGuards (hGet s.heap addr).closePromises = [g])
    (ht : s.tasks = []) :
    mLookup (openModal opts (closeStart s id).1 id p2).modalsMap id = some s.heap.length
    ∧ hGet (openModal opts (closeStart s id).1 id p2).heap s.heap.length
        = { visible := true, props := assignProps [] p2,
            zIndex := opts.baseZIndex + s.modalQueue.length,
            isClosing := false, closePromises := [] }
    ∧ (openModal opts (closeStart s id).1 id p2).modalQueue = s.modalQueue ++ [id]
    ∧ mLookup ((closeStep outcome (openModal opts (closeStart s id).1 id p2) 0).1).modalsMap id
        = some s.heap.length
    ∧ hGet ((closeStep outcome (openModal opts (closeStart s id).1 id p2) 0).1).heap s.heap.length
        = { visible := true, props := assignProps [] p2,
            zIndex := opts.baseZIndex + s.modalQueue.length,
            isClosing := false, closePromises := [] }
    ∧ ((closeStep outcome (openModal opts (closeStart s id).1 id p2) 0).1).modalQueue
        = s.modalQueue ++ [id] := by
  obtain ⟨h1, h2, h3, h4, h5, h6, _⟩ :=
    reopen_state_spec opts outcome s id addr g p2 hmu hm ha hc hg ht
  exact ⟨h1, h2, h3, h4, h5, h6⟩

/-- C10: a reopen during a suspended close deletes the old registry record
but leaves the old queue entry while pushing the id again, so the queue
holds the id twice; after the stale guard settles, a subsequent successful
close removes only the first occurrence, leaving a stale queue entry for an
id that is no longer registered. -/
theorem stale_queue_entry_on_reopen
    (opts : Opts) (outcome : Nat → GRes) (s : St) (id addr g : Nat) (p2 : List (Nat × Nat))
    (hmu : opts.allowMultiple = true)
    (hm : mLookup s.modalsMap id = some addr) (ha : addr < s.heap.length)
    (hc : (hGet s.heap addr).isClosing = false)
    (hg : flatGuards (hGet s.heap addr).closePromises = [g])
    (ht : s.tasks = [])
    (hq : s.modalQueue.count id = 1) :
    (openModal opts (closeStart s id).1 id p2).modalQueue.count id = 2
    ∧ (closeModal outcome ((closeStep outcome (openModal opts (closeStart s id).1 id p2) 0).1) id).2.1
        = true
    ∧ mLookup (closeModal outcome ((closeStep outcome (openModal opts
        (closeStart s id).1 id p2) 0).1) id).1.modalsMap id = none
    ∧ (closeModal outcome ((closeStep outcome (openModal opts
        (closeStart s id).1 id p2) 0).1) id).1.modalQueue.count id = 1 := by
  obtain ⟨h1, h2, h3, h4, h5, h6, h7⟩ :=
    reopen_state_spec opts outcome s id addr g p2 hmu hm ha hc hg ht
  have hc3 : (hGet ((closeStep outcome (openModal opts (closeStart s id).1 id p2) 0).1).heap
      s.heap.length).isClosing = false := by
    rw [h5]
  have hall : ∀ x ∈ flatGuards (hGet ((closeStep outcome (openModal opts
      (closeStart s id).1 id p2) 0).1).heap s.heap.length).closePromises,
      allowsB (outcome x) = true := by
    rw [h5]
    intro x hx
    simp [flatGuards] at hx
  have ha3 : s.heap.length < ((closeStep outcome (openModal opts
      (closeStart s id).1 id p2) 0).1).heap.length := by
    rw [h7]
    omega
  have hkey := closeModal_allowed_eq outcome _ id s.heap.length h4 ha3 hc3 hall
  refine ⟨?_, ?_, ?_, ?_⟩
  · rw [h3]
    simp [List.count_append, hq]
  · rw [hkey]
  · simp only [hkey]
    exact mLookup_mDelete_self _ _
  · simp only [hkey]
    rw [count_removeFirst, h6]
    simp [List.count_append, hq]

def opts0 : Opts := ⟨1000, true⟩

/-- A context in which modal 1 is open with a single guard 5 (owner 7). -/
def sOneGuard : St := execEvs opts0 owAllow initSt [Ev.openM 1 [], Ev.addCP 1 7 5]

theorem reopen_during_close_witness :
    mLookup (openModal opts0 (closeStart sOneGuard 1).1 1 [(2, 3)]).modalsMap 1
        = some sOneGuard.heap.length
    ∧ hGet (openModal opts0 (closeStart sOneGuard 1).1 1 [(2, 3)]).heap sOneGuard.heap.length
        = { visible := true, props := assignProps [] [(2, 3)],
            zIndex := opts0.baseZIndex + sOneGuard.modalQueue.length,
            isClosing := false, closePromises := [] }
    ∧ (openModal opts0 (closeStart sOneGuard 1).1 1 [(2, 3)]).modalQueue
        = sOneGuard.modalQueue ++ [1]
    ∧ mLookup ((closeStep owAllow (openModal opts0 (closeStart sOneGuard 1).1 1
        [(2, 3)]) 0).1).modalsMap 1 = some sOneGuard.heap.length
    ∧ hGet ((closeStep owAllow (openModal opts0 (closeStart sOneGuard 1).1 1
        [(2, 3)]) 0).1).heap sOneGuard.heap.length
        = { visible := true, props := assignProps [] [(2, 3)],
            zIndex := opts0.baseZIndex + sOneGuard.modalQueue.length,
            isClosing := false, closePromises := [] }
    ∧ ((closeStep owAllow (openModal opts0 (closeStart sOneGuard 1).1 1
        [(2, 3)]) 0).1).modalQueue = sOneGuard.modalQueue ++ [1] :=
  reopen_during_close opts0 owAllow sOneGuard 1 0 5 [(2, 3)] (by decide) (by decide)
    (by decide) (by decide) (by decide) (by decide)

theorem stale_queue_entry_on_reopen_witness :
    (openModal opts0 (closeStart sOneGuard 1).1 1 [(2, 3)]).modalQueue.count 1 = 2
    ∧ (closeModal owAllow ((closeStep owAllow (openModal opts0 (closeStart sOneGuard 1).1 1
        [(2, 3)]) 0).1) 1).2.1 = true
    ∧ mLookup (closeModal owAllow ((closeStep owAllow (openModal opts0
        (closeStart sOneGuard 1).1 1 [(2, 3)]) 0).1) 1).1.modalsMap 1 = none
    ∧ (closeModal owAllow ((closeStep owAllow (openModal opts0
        (closeStart sOneGuard 1).1 1 [(2, 3)]) 0).1) 1).1.modalQueue.count 1 = 1 :=
  stale_queue_entry_on_reopen opts0 owAllow sOneGuard 1 0 5 [(2, 3)] (by decide) (by decide)
    (by decide) (by decide) (by decide) (by decide) (by decide)

/-! ### Eviction under allowMultiple = false -/

/-- A close that suspends on one guard: the synchronous prefix marks the
record and parks the negotiation. -/
theorem closeStart_suspends (s : St) (id addr g : Nat)
    (hm : mLookup s.modalsMap id = some addr) (ha : addr < s.heap.length)
    (hc : (hGet s.heap addr).isClosing = false)
    (hg : flatGuards (hGet s.heap addr).closePromises = [g]) :
    closeStart s id
      = ({ s with heap := hMod s.heap addr (fun r => { r with visible := false, isClosing := true }),
                  tasks := s.tasks ++ [⟨id, addr, [g]⟩] }, none) := by
  have hrec1 : hGet (hMod s.heap addr (fun r => { r with visible := false, isClosing := true })) addr
      = { hGet s.heap addr with visible := false, isClosing := true } := hGet_hMod_self _ _ _ ha
  simp only [closeStart, hm, hc, Bool.false_eq_true, if_false, hrec1]
  rw [hg]

/-- C8: with `allowMultiple = false`, opening B while A is the open modal
fires a full close negotiation of A (A's record goes into `isClosing`) and
B opens regardless; if A's guard then denies, both A and B remain open; if
it allows, only B remains registered and queued. -/
theorem eviction_best_effort
    (opts : Opts) (outcome : Nat → GRes) (s : St) (A B addrA g : Nat) (pB : List (Nat × Nat))
    (hmu : opts.allowMultiple = false)
    (hq : s.modalQueue = [A])
    (hmA : mLookup s.modalsMap A = some addrA) (haA : addrA < s.heap.length)
    (hcA : (hGet s.heap addrA).isClosing = false)
    (hgA : flatGuards (hGet s.heap addrA).closePromises = [g])
    (hmB : mLookup s.modalsMap B = none)
    (hAB : A ≠ B)
    (ht : s.tasks = []) :
    ((openModal opts s B pB).modalQueue = [A, B]
      ∧ mLookup (openModal opts s B pB).modalsMap B = some s.heap.length
      ∧ (hGet (openModal opts s B pB).heap addrA).isClosing = true)
    ∧ (outcome g = GRes.ok (some false) →
        mLookup ((closeStep outcome (openModal opts s B pB) 0).1).modalsMap A = some addrA
        ∧ (hGet ((closeStep outcome (openModal opts s B pB) 0).1).heap addrA).visible = true
        ∧ mLookup ((closeStep outcome (openModal opts s B pB) 0).1).modalsMap B
            = some s.heap.length
        ∧ (hGet ((closeStep outcome (openModal opts s B pB) 0).1).heap s.heap.length).visible
            = true
        ∧ ((closeStep outcome (openModal opts s B pB) 0).1).modalQueue = [A, B])
    ∧ ((outcome g = GRes.ok (some true) ∨ outcome g = GRes.ok none) →
        mLookup ((closeStep outcome (openModal opts s B pB) 0).1).modalsMap A = none
        ∧ mLookup ((closeStep outcome (openModal opts s B pB) 0).1).modalsMap B
            = some s.heap.length
        ∧ (hGet ((closeStep outcome (openModal opts s B pB) 0).1).heap s.heap.length).visible
            = true
        ∧ ((closeStep outcome (openModal opts s B pB) 0).1).modalQueue = [B]) := by
  have hsus := closeStart_suspends s A addrA g hmA haA hcA hgA
  set nr : Record := { visible := true, props := assignProps [] pB, zIndex := opts.baseZIndex + 1, isClosing := false, closePromises := [] } with hnr
  have hso : openModal opts s B pB
      = { heap := hMod s.heap addrA (fun r => { r with visible := false, isClosing := true }) ++ [nr],
          modalsMap := mSet s.modalsMap B s.heap.length,
          modalQueue := [A, B],
          tasks := [⟨A, addrA, [g]⟩],
          errCount := s.errCount } := by
    simp only [openModal, hmu, hq, Bool.not_false, List.isEmpty_cons, Bool.and_self, if_true,
      evict, List.getLast?_singleton, hmA, hsus, hmB, createRecord, length_hMod, ht,
      List.nil_append, List.cons_append, List.length_singleton, hnr]
  have haA1 : addrA < (hMod s.heap addrA
      (fun r => { r with visible := false, isClosing := true })).length := by
    rw [length_hMod]
    exact haA
  have hgetA : hGet (hMod s.heap addrA (fun r => { r with visible := false, isClosing := true })
        ++ [nr]) addrA
      = { hGet s.heap addrA with visible := false, isClosing := true } := by
    rw [hGet_append_lt _ _ _ haA1, hGet_hMod_self _ _ _ haA]
  have hlenh : (hMod s.heap addrA
      (fun r => { r with visible := false, isClosing := true })).length = s.heap.length :=
    length_hMod _ _ _
  have hgetB : hGet (hMod s.heap addrA (fun r => { r with visible := false, isClosing := true })
        ++ [nr]) s.heap.length = nr := by
    have happ := hGet_append_self (hMod s.heap addrA
      (fun r => { r with visible := false, isClosing := true })) nr
    rwa [hlenh] at happ
  have hne : s.heap.length ≠ addrA := ne_of_gt haA
  have haA2 : addrA < (hMod s.heap addrA
      (fun r => { r with visible := false, isClosing := true }) ++ [nr]).length := by
    rw [List.length_append, hlenh]
    omega
  have hlookB : mLookup (mSet s.modalsMap B s.heap.length) B = some s.heap.length :=
    mLookup_mSet_self _ _ _
  have hlookA : mLookup (mSet s.modalsMap B s.heap.length) A = some addrA := by
    rw [mLookup_mSet_ne _ _ _ _ hAB]
    exact hmA
  refine ⟨⟨?_, ?_, ?_⟩, ?_, ?_⟩
  · rw [hso]
  · rw [hso]
    exact hlookB
  · simp only [hso]
    rw [hgetA]
  · intro ho
    rw [hso]
    simp only [closeStep, List.get?_cons_zero, ho]
    refine ⟨hlookA, ?_, hlookB, ?_, trivial⟩
    · rw [hGet_hMod_self _ _ _ haA2]
    · rw [hGet_hMod_ne _ _ _ _ hne, hgetB]
  · intro ho
    have hstep : (closeStep outcome (openModal opts s B pB) 0).1
        = { heap := hMod s.heap addrA (fun r => { r with visible := false, isClosing := true }) ++ [nr],
            modalsMap := mDelete (mSet s.modalsMap B s.heap.length) A,
            modalQueue := removeFirst [A, B] A,
            tasks := List.eraseIdx [⟨A, addrA, [g]⟩] 0,
            errCount := s.errCount } := by
      rw [hso]
      rcases ho with ho | ho <;>
        simp only [closeStep, List.get?_cons_zero, ho, completeClose, hgetA, if_true]
    simp only [hstep]
    refine ⟨mLookup_mDelete_self _ _, ?_, ?_, ?_⟩
    · rw [mLookup_mDelete_ne _ _ _ (Ne.symm hAB)]
      exact hlookB
    · rw [hgetB]
    · simp [removeFirst]

def optsSingle : Opts := ⟨1000, false⟩

/-- A single-modal context in which modal 1 is open with guard 5 (owner 7). -/
def sEvict : St := execEvs optsSingle owAllow initSt [Ev.openM 1 [], Ev.addCP 1 7 5]

theorem eviction_best_effort_witness :
    ((openModal optsSingle sEvict 2 []).modalQueue = [1, 2]
      ∧ mLookup (openModal optsSingle sEvict 2 []).modalsMap 2 = some sEvict.heap.length
      ∧ (hGet (openModal optsSingle sEvict 2 []).heap 0).isClosing = true)
    ∧ (owAllow 5 = GRes.ok (some false) →
        mLookup ((closeStep owAllow (openModal optsSingle sEvict 2 []) 0).1).modalsMap 1 = some 0
        ∧ (hGet ((closeStep owAllow (openModal optsSingle sEvict 2 []) 0).1).heap 0).visible = true
        ∧ mLookup ((closeStep owAllow (openModal optsSingle sEvict 2 []) 0).1).modalsMap 2
            = some sEvict.heap.length
        ∧ (hGet ((closeStep owAllow (openModal optsSingle sEvict 2 []) 0).1).heap
            sEvict.heap.length).visible = true
        ∧ ((closeStep owAllow (openModal optsSingle sEvict 2 []) 0).1).modalQueue = [1, 2])
    ∧ ((owAllow 5 = GRes.ok (some true) ∨ owAllow 5 = GRes.ok none) →
        mLookup ((closeStep owAllow (openModal optsSingle sEvict 2 []) 0).1).modalsMap 1 = none
        ∧ mLookup ((closeStep owAllow (openModal optsSingle sEvict 2 []) 0).1).modalsMap 2
            = some sEvict.heap.length
        ∧ (hGet ((closeStep owAllow (openModal optsSingle sEvict 2 []) 0).1).heap
            sEvict.heap.length).visible = true
        ∧ ((closeStep owAllow (openModal optsSingle sEvict 2 []) 0).1).modalQueue = [2]) :=
  eviction_best_effort optsSingle owAllow sEvict 1 2 0 5 [] (by decide) (by decide) (by decide)
    (by decide) (by decide) (by decide) (by decide) (by decide) (by decide)

/-! ### The registry invariant (C3) -/

/-- C3's registry invariant: every registered record is visible or mid-close. -/
def RegInv (s : St) : Prop :=
  ∀ p ∈ s.modalsMap, (hGet s.heap p.2).visible = true ∨ (hGet s.heap p.2).isClosing = true

/-- Registry well-formedness: record addresses are in range and distinct. -/
def MapWF (s : St) : Prop :=
  (∀ p ∈ s.modalsMap, p.2 < s.heap.length) ∧ (s.modalsMap.map Prod.snd).Nodup

/-- The inductive invariant: the registry invariant plus well-formedness. -/
def CtxInv (s : St) : Prop := RegInv s ∧ MapWF s

theorem hGet_hMod (h : List Record) (a b : Nat) (f : Record → Record) :
    hGet (hMod h a f) b = if b = a ∧ a < h.length then f (hGet h a) else hGet h b := by
  by_cases hb : b = a
  · subst hb
    by_cases hlt : b < h.length
    · rw [hGet_hMod_self h b f hlt, if_pos ⟨rfl, hlt⟩]
    · rw [hMod, List.set_eq_of_length_le (Nat.le_of_not_lt hlt), if_neg]
      intro hcon
      exact hlt hcon.2
  · rw [hGet_hMod_ne h a b f hb, if_neg]
    intro hcon
    exact hb hcon.1

theorem mem_mDelete (m : List (Nat × Nat)) (k : Nat) (p : Nat × Nat) (hp : p ∈ mDelete m k) :
    p ∈ m := by
  induction m with
  | nil => exact absurd hp (List.not_mem_nil p)
  | cons q qs ih =>
    by_cases h : q.1 = k
    · rw [mDelete, if_pos h] at hp
      exact List.mem_cons_of_mem q (ih hp)
    · rw [mDelete, if_neg h] at hp
      rcases List.mem_cons.mp hp with h1 | h1
      · rw [h1]
        exact List.mem_cons_self q qs
      · exact List.mem_cons_of_mem q (ih h1)

theorem mem_mDelete_key (m : List (Nat × Nat)) (k : Nat) (p : Nat × Nat)
    (hp : p ∈ mDelete m k) : p.1 ≠ k := by
  induction m with
  | nil => exact absurd hp (List.not_mem_nil p)
  | cons q qs ih =>
    by_cases h : q.1 = k
    · rw [mDelete, if_pos h] at hp
      exact ih hp
    · rw [mDelete, if_neg h] at hp
      rcases List.mem_cons.mp hp with h1 | h1
      · rw [h1]
        exact h
      · exact ih h1

theorem mDelete_sublist (m : List (Nat × Nat)) (k : Nat) : (mDelete m k).Sublist m := by
  induction m with
  | nil => exact List.Sublist.refl []
  | cons q qs ih =>
    by_cases h : q.1 = k
    · rw [mDelete, if_pos h]
      exact ih.cons q
    · rw [mDelete, if_neg h]
      exact ih.cons₂ q

theorem mSet_eq_append (m : List (Nat × Nat)) (k v : Nat) (hk : mLookup m k = none) :
    mSet m k v = m ++ [(k, v)] := by
  induction m with
  | nil => rfl
  | cons q qs ih =>
    rw [mLookup] at hk
    by_cases h : q.1 = k
    · rw [if_pos h] at hk
      exact absurd hk (by simp)
    · rw [if_neg h] at hk
      rw [mSet, if_neg h, ih hk, List.cons_append]

theorem mLookup_mem (m : List (Nat × Nat)) (k v : Nat) (h : mLookup m k = some v) :
    (k, v) ∈ m := by
  induction m with
  | nil => cases h
  | cons q qs ih =>
    rw [mLookup] at h
    by_cases hq : q.1 = k
    · rw [if_pos hq] at h
      injection h with h
      have hqkv : q = (k, v) := by
        rw [← hq, ← h]
      rw [← hqkv]
      exact List.mem_cons_self q qs
    · rw [if_neg hq] at h
      exact List.mem_cons_of_mem q (ih h)

theorem nodup_snd_unique (m : List (Nat × Nat)) (hnd : (m.map Prod.snd).Nodup)
    (p q : Nat × Nat) (hp : p ∈ m) (hq : q ∈ m) (hsnd : p.2 = q.2) : p = q := by
  induction m with
  | nil => exact absurd hp (List.not_mem_nil p)
  | cons x xs ih =>
    rw [List.map_cons, List.nodup_cons] at hnd
    rcases List.mem_cons.mp hp with hp1 | hp1 <;> rcases List.mem_cons.mp hq with hq1 | hq1
    · rw [hp1, hq1]
    · exfalso
      apply hnd.1
      rw [← hp1, hsnd]
      exact List.mem_map_of_mem Prod.snd hq1
    · exfalso
      apply hnd.1
      rw [← hq1, ← hsnd]
      exact List.mem_map_of_mem Prod.snd hp1
    · exact ih hnd.2 hp1 hq1

theorem CtxInv_heapMod (s : St) (addr : Nat) (f : Record → Record)
    (hf : ∀ r, ((f r).visible = true ∨ (f r).isClosing = true)
        ∨ ((f r).visible = r.visible ∧ (f r).isClosing = r.isClosing))
    (h : CtxInv s) : CtxInv { s with heap := hMod s.heap addr f } := by
  obtain ⟨hreg, hbound, hnd⟩ := h
  refine ⟨?_, ?_, hnd⟩
  · intro p hp
    show (hGet (hMod s.heap addr f) p.2).visible = true
        ∨ (hGet (hMod s.heap addr f) p.2).isClosing = true
    rw [hGet_hMod]
    by_cases hcond : p.2 = addr ∧ addr < s.heap.length
    · rw [if_pos hcond]
      rcases hf (hGet s.heap addr) with hgood | hkeep
      · exact hgood
      · rw [hkeep.1, hkeep.2]
        have hr := hreg p hp
        rw [hcond.1] at hr
        exact hr
    · rw [if_neg hcond]
      exact hreg p hp
  · intro p hp
    show p.2 < (hMod s.heap addr f).length
    rw [length_hMod]
    exact hbound p hp

theorem CtxInv_delete (s : St) (id : Nat) (q : List Nat) (h : CtxInv s) :
    CtxInv { s with modalsMap := mDelete s.modalsMap id, modalQueue := q } := by
  obtain ⟨hreg, hbound, hnd⟩ := h
  refine ⟨?_, ?_, ?_⟩
  · intro p hp
    exact hreg p (mem_mDelete _ _ _ hp)
  · intro p hp
    exact hbound p (mem_mDelete _ _ _ hp)
  · exact List.Nodup.sublist (List.Sublist.map Prod.snd (mDelete_sublist s.modalsMap id)) hnd

theorem CtxInv_addClosePromise (s : St) (a b c : Nat) (h : CtxInv s) :
    CtxInv (addClosePromise s a b c) := by
  unfold addClosePromise
  cases hm : mLookup s.modalsMap a with
  | none => exact h
  | some addr => exact CtxInv_heapMod s addr _ (fun r => Or.inr ⟨rfl, rfl⟩) h

theorem CtxInv_removeComponentPromises (s : St) (a b : Nat) (h : CtxInv s) :
    CtxInv (removeComponentPromises s a b) := by
  unfold removeComponentPromises
  cases hm : mLookup s.modalsMap a with
  | none => exact h
  | some addr => exact CtxInv_heapMod s addr _ (fun r => Or.inr ⟨rfl, rfl⟩) h

theorem CtxInv_completeClose (s : St) (id addr : Nat) (h : CtxInv s) :
    CtxInv (completeClose s id addr).1 := by
  unfold completeClose
  by_cases hcc : (hGet s.heap addr).isClosing = true
  · rw [if_pos hcc]
    exact CtxInv_delete s id _ h
  · rw [if_neg hcc]
    exact h

theorem CtxInv_closeStart (s : St) (id : Nat) (h : CtxInv s) :
    CtxInv (closeStart s id).1 := by
  cases hm : mLookup s.modalsMap id with
  | none =>
    simp only [closeStart, hm]
    exact h
  | some addr =>
    by_cases hcl : (hGet s.heap addr).isClosing = true
    · simp only [closeStart, hm, hcl, if_true]
      exact h
    · have hcl' : (hGet s.heap addr).isClosing = false := by
        cases hx : (hGet s.heap addr).isClosing
        · rfl
        · exact absurd hx hcl
      simp only [closeStart, hm, hcl', Bool.false_eq_true, if_false]
      have h1 : CtxInv { s with heap := hMod s.heap addr (fun r => { r with visible := false, isClosing := true }) } :=
        CtxInv_heapMod s addr _ (fun r => Or.inl (Or.inr rfl)) h
      cases hfg : flatGuards (hGet (hMod s.heap addr (fun r => { r with visible := false, isClosing := true })) addr).closePromises with
      | nil =>
        simp only [hfg]
        exact CtxInv_completeClose _ id addr h1
      | cons g gs =>
        simp only [hfg]
        exact h1

theorem CtxInv_closeStep (outcome : Nat → GRes) (hne : ∀ g, outcome g ≠ GRes.err)
    (s : St) (i : Nat) (h : CtxInv s) : CtxInv (closeStep outcome s i).1 := by
  cases hti : s.tasks.get? i with
  | none =>
    simp only [closeStep, hti]
    exact h
  | some t =>
    cases hp : t.pending with
    | nil =>
      simp only [closeStep, hti, hp]
      exact h
    | cons g rest =>
      have h0 : CtxInv { s with tasks := s.tasks.eraseIdx i } := h
      cases ho : outcome g with
      | err => exact absurd ho (hne g)
      | ok r =>
        cases r with
        | none =>
          cases rest with
          | nil =>
            simp only [closeStep, hti, hp, ho]
            exact CtxInv_completeClose _ t.modalId t.addr h0
          | cons g2 gs2 =>
            simp only [closeStep, hti, hp, ho]
            exact h
        | some b =>
          cases b with
          | true =>
            cases rest with
            | nil =>
              simp only [closeStep, hti, hp, ho]
              exact CtxInv_completeClose _ t.modalId t.addr h0
            | cons g2 gs2 =>
              simp only [closeStep, hti, hp, ho]
              exact h
          | false =>
            simp only [closeStep, hti, hp, ho]
            exact CtxInv_heapMod _ t.addr _ (fun r => Or.inl (Or.inl rfl)) h0

theorem CtxInv_create_aux (s : St) (id : Nat) (nr : Record) (q2 : List Nat)
    (hm : mLookup s.modalsMap id = none) (hv : nr.visible = true) (h : CtxInv s) :
    CtxInv { heap := s.heap ++ [nr], modalsMap := mSet s.modalsMap id s.heap.length,
             modalQueue := q2, tasks := s.tasks, errCount := s.errCount } := by
  obtain ⟨hreg, hbound, hnd⟩ := h
  have hset := mSet_eq_append s.modalsMap id s.heap.length hm
  refine ⟨?_, ?_, ?_⟩
  · intro q hq
    have hq' : q ∈ s.modalsMap ++ [(id, s.heap.length)] := by
      rw [← hset]
      exact hq
    show (hGet (s.heap ++ [nr]) q.2).visible = true ∨ (hGet (s.heap ++ [nr]) q.2).isClosing = true
    rcases List.mem_append.mp hq' with h1 | h1
    · rw [hGet_append_lt _ _ _ (hbound q h1)]
      exact hreg q h1
    · have hq2 : q = (id, s.heap.length) := by simpa using h1
      left
      rw [hq2]
      show (hGet (s.heap ++ [nr]) s.heap.length).visible = true
      rw [hGet_append_self]
      exact hv
  · intro q hq
    have hq' : q ∈ s.modalsMap ++ [(id, s.heap.length)] := by
      rw [← hset]
      exact hq
    show q.2 < (s.heap ++ [nr]).length
    rw [List.length_append]
    rcases List.mem_append.mp hq' with h1 | h1
    · have := hbound q h1
      simp only [List.length_singleton]
      omega
    · have hq2 : q = (id, s.heap.length) := by simpa using h1
      rw [hq2]
      simp
  · show ((mSet s.modalsMap id s.heap.length).map Prod.snd).Nodup
    rw [hset, List.map_append]
    rw [List.nodup_append]
    refine ⟨hnd, List.nodup_singleton _, ?_⟩
    intro a ha hb
    have hb' : a = s.heap.length := by simpa using hb
    rcases List.mem_map.mp ha with ⟨q, hqm, hqa⟩
    have := hbound q hqm
    omega

theorem CtxInv_createRecord (opts : Opts) (s : St) (id : Nat) (p : List (Nat × Nat))
    (hm : mLookup s.modalsMap id = none) (h : CtxInv s) : CtxInv (createRecord opts s id p) :=
  CtxInv_create_aux s id _ _ hm rfl h

theorem CtxInv_cancel (s : St) (id addr : Nat) (f : Record → Record)
    (hm : mLookup s.modalsMap id = some addr) (h : CtxInv s) :
    CtxInv { s with heap := hMod s.heap addr f, modalsMap := mDelete s.modalsMap id } := by
  obtain ⟨hreg, hbound, hnd⟩ := h
  have hidm : (id, addr) ∈ s.modalsMap := mLookup_mem _ _ _ hm
  refine ⟨?_, ?_, ?_⟩
  · intro q hq
    have hqm := mem_mDelete _ _ _ hq
    have hqk := mem_mDelete_key _ _ _ hq
    have hqa : q.2 ≠ addr := by
      intro hcon
      have hqe := nodup_snd_unique s.modalsMap hnd q (id, addr) hqm hidm hcon
      apply hqk
      rw [hqe]
    show (hGet (hMod s.heap addr f) q.2).visible = true
        ∨ (hGet (hMod s.heap addr f) q.2).isClosing = true
    rw [hGet_hMod_ne _ _ _ _ hqa]
    exact hreg q hqm
  · intro q hq
    show q.2 < (hMod s.heap addr f).length
    rw [length_hMod]
    exact hbound q (mem_mDelete _ _ _ hq)
  · exact List.Nodup.sublist (List.Sublist.map Prod.snd (mDelete_sublist s.modalsMap id)) hnd

theorem CtxInv_evict (s : St) (h : CtxInv s) : CtxInv (evict s) := by
  cases hl : s.modalQueue.getLast? with
  | none =>
    simp only [evict, hl]
    exact h
  | some lastId =>
    cases hm : mLookup s.modalsMap lastId with
    | none =>
      simp only [evict, hl, hm]
      exact h
    | some addr =>
      simp only [evict, hl, hm]
      exact CtxInv_closeStart s lastId h

theorem CtxInv_openModal (opts : Opts) (s : St) (id : Nat) (p : List (Nat × Nat))
    (h : CtxInv s) : CtxInv (openModal opts s id p) := by
  have hs' : CtxInv (if !opts.allowMultiple && !s.modalQueue.isEmpty then evict s else s) := by
    by_cases hcond : (!opts.allowMultiple && !s.modalQueue.isEmpty) = true
    · rw [if_pos hcond]
      exact CtxInv_evict s h
    · rw [if_neg hcond]
      exact h
  simp only [openModal]
  generalize hS : (if (!opts.allowMultiple && !s.modalQueue.isEmpty) = true then evict s else s) = s1
  rw [hS] at hs'
  cases hm : mLookup s1.modalsMap id with
  | none =>
    simp only [hm]
    exact CtxInv_createRecord opts s1 id p hm hs'
  | some addr =>
    simp only [hm]
    have hmerge : CtxInv { s1 with heap := hMod s1.heap addr (fun r => { r with props := assignProps r.props p }) } :=
      CtxInv_heapMod s1 addr _ (fun r => Or.inr ⟨rfl, rfl⟩) hs'
    by_cases hcl : (hGet (hMod s1.heap addr (fun r => { r with props := assignProps r.props p })) addr).isClosing = false
    · rw [if_pos hcl]
      exact hmerge
    · rw [if_neg hcl]
      exact CtxInv_createRecord opts _ id p (mLookup_mDelete_self _ _)
        (CtxInv_cancel { s1 with heap := hMod s1.heap addr (fun r => { r with props := assignProps r.props p }) }
          id addr _ hm hmerge)

theorem CtxInv_stepEv (opts : Opts) (outcome : Nat → GRes) (hne : ∀ g, outcome g ≠ GRes.err)
    (s : St) (e : Ev) (h : CtxInv s) : CtxInv (stepEv opts outcome s e) := by
  cases e with
  | openM id p => exact CtxInv_openModal opts s id p h
  | closeReq id => exact CtxInv_closeStart s id h
  | resume i => exact CtxInv_closeStep outcome hne s i h
  | addCP a b c => exact CtxInv_addClosePromise s a b c h
  | removeCP a b => exact CtxInv_removeComponentPromises s a b h

theorem CtxInv_execEvs (opts : Opts) (outcome : Nat → GRes) (hne : ∀ g, outcome g ≠ GRes.err)
    (es : List Ev) (s : St) (h : CtxInv s) : CtxInv (execEvs opts outcome s es) := by
  induction es generalizing s with
  | nil => exact h
  | cons e es ih => exact ih (stepEv opts outcome s e) (CtxInv_stepEv opts outcome hne s e h)

theorem CtxInv_initSt : CtxInv initSt :=
  ⟨fun p hp => absurd hp (List.not_mem_nil p),
   fun p hp => absurd hp (List.not_mem_nil p),
   List.nodup_nil⟩

/-- C3 counterexample: a guard error during close leaves the record
registered with `visible = false` and `isClosing = false`, so the invariant
"a record exists iff it is visible or closing" fails as stated. -/
theorem registry_invariant_counterexample :
    mLookup (execEvs opts0 owThrow6 initSt
        [Ev.openM 1 [], Ev.addCP 1 7 6, Ev.closeReq 1, Ev.resume 0]).modalsMap 1 = some 0
    ∧ (hGet (execEvs opts0 owThrow6 initSt
        [Ev.openM 1 [], Ev.addCP 1 7 6, Ev.closeReq 1, Ev.resume 0]).heap 0).visible = false
    ∧ (hGet (execEvs opts0 owThrow6 initSt
        [Ev.openM 1 [], Ev.addCP 1 7 6, Ev.closeReq 1, Ev.resume 0]).heap 0).isClosing = false
    ∧ ¬ RegInv (execEvs opts0 owThrow6 initSt
        [Ev.openM 1 [], Ev.addCP 1 7 6, Ev.closeReq 1, Ev.resume 0]) := by
  refine ⟨by decide, by decide, by decide, ?_⟩
  intro hreg
  have hcase := hreg (1, 0) (by decide)
  rcases hcase with hcase | hcase <;> revert hcase <;> decide

/-- C3 (amended): provided no guard ever throws or rejects, every state
reachable from a fresh context under open, closeModal (synchronous start
and each resumption), addClosePromise and removeComponentPromises satisfies
the registry invariant: every registered record is visible or mid-close.
The guard-error recovery path (which leaves a registered record neither
visible nor closing) is the only violation. -/
theorem registry_records_visible_or_closing
    (opts : Opts) (outcome : Nat → GRes) (hne : ∀ g, outcome g ≠ GRes.err) (es : List Ev) :
    RegInv (execEvs opts outcome initSt es) :=
  (CtxInv_execEvs opts outcome hne es initSt CtxInv_initSt).1

theorem registry_records_visible_or_closing_witness :
    RegInv (execEvs opts0 owAllow initSt [Ev.openM 1 [], Ev.addCP 1 7 5, Ev.closeReq 1]) :=
  registry_records_visible_or_closing opts0 owAllow (fun g h => by simp [owAllow] at h)
    [Ev.openM 1 [], Ev.addCP 1 7 5, Ev.closeReq 1]

/-! ### Stacking values (C9) -/

/-- C9 counterexample: after opening modals 1, 2, 3 (queue [1, 2, 3]),
successfully closing 2 (queue [1, 3]) and opening 4 (queue [1, 3, 4]),
modal 4's stacking value is 1000 + 2 = 1002, equal to modal 3's — not
greater, refuting the monotonicity claim. -/
theorem stacking_value_counterexample :
    (execEvs opts0 owAllow initSt
        [Ev.openM 1 [], Ev.openM 2 [], Ev.openM 3 [], Ev.closeReq 2, Ev.openM 4 []]).modalQueue
      = [1, 3, 4]
    ∧ mLookup (execEvs opts0 owAllow initSt
        [Ev.openM 1 [], Ev.openM 2 [], Ev.openM 3 [], Ev.closeReq 2, Ev.openM 4 []]).modalsMap 4
      = some 3
    ∧ mLookup (execEvs opts0 owAllow initSt
        [Ev.openM 1 [], Ev.openM 2 [], Ev.openM 3 [], Ev.closeReq 2, Ev.openM 4 []]).modalsMap 3
      = some 2
    ∧ (hGet (execEvs opts0 owAllow initSt
        [Ev.openM 1 [], Ev.openM 2 [], Ev.openM 3 [], Ev.closeReq 2, Ev.openM 4 []]).heap 3).zIndex
      = 1002
    ∧ (hGet (execEvs opts0 owAllow initSt
        [Ev.openM 1 [], Ev.openM 2 [], Ev.openM 3 [], Ev.closeReq 2, Ev.openM 4 []]).heap 2).zIndex
      = 1002
    ∧ ¬ ((hGet (execEvs opts0 owAllow initSt
          [Ev.openM 1 [], Ev.openM 2 [], Ev.openM 3 [], Ev.closeReq 2, Ev.openM 4 []]).heap 3).zIndex
        > (hGet (execEvs opts0 owAllow initSt
          [Ev.openM 1 [], Ev.openM 2 [], Ev.openM 3 [], Ev.closeReq 2, Ev.openM 4 []]).heap 2).zIndex) := by
  decide

/-- C9 (amended): a newly created record's stacking value is
`baseZIndex + current queue length`, which is not monotonic across
removals: in the A,B,C → close B → open D scenario the queue is [A, C, D]
and D's stacking value equals C's (1002), rather than exceeding it. -/
theorem stacking_value_amended :
    (execEvs opts0 owAllow initSt
        [Ev.openM 1 [], Ev.openM 2 [], Ev.openM 3 [], Ev.closeReq 2, Ev.openM 4 []]).modalQueue
      = [1, 3, 4]
    ∧ (hGet (execEvs opts0 owAllow initSt
        [Ev.openM 1 [], Ev.openM 2 [], Ev.openM 3 [], Ev.closeReq 2, Ev.openM 4 []]).heap 3).zIndex
      = opts0.baseZIndex + 2
    ∧ (hGet (execEvs opts0 owAllow initSt
        [Ev.openM 1 [], Ev.openM 2 [], Ev.openM 3 [], Ev.closeReq 2, Ev.openM 4 []]).heap 3).zIndex
      = (hGet (execEvs opts0 owAllow initSt
        [Ev.openM 1 [], Ev.openM 2 [], Ev.openM 3 [], Ev.closeReq 2, Ev.openM 4 []]).heap 2).zIndex := by
  decide

/-- C6 counterexample: in the reachable state produced by reopening modal 1
while its close was suspended (queue [1, 1]) and letting the stale guard
settle, an all-allow `closeModal` resolves `true` and deletes the record,
yet the identity is still present in the open queue — it is not absent from
both structures as claimed. -/
theorem all_guards_allow_counterexample :
    (closeModal owAllow (execEvs opts0 owAllow initSt
        [Ev.openM 1 [], Ev.addCP 1 7 5, Ev.closeReq 1, Ev.openM 1 [], Ev.resume 0]) 1).2.1 = true
    ∧ mLookup (closeModal owAllow (execEvs opts0 owAllow initSt
        [Ev.openM 1 [], Ev.addCP 1 7 5, Ev.closeReq 1, Ev.openM 1 [], Ev.resume 0]) 1).1.modalsMap 1
      = none
    ∧ 1 ∈ (closeModal owAllow (execEvs opts0 owAllow initSt
        [Ev.openM 1 [], Ev.addCP 1 7 5, Ev.closeReq 1, Ev.openM 1 [], Ev.resume 0]) 1).1.modalQueue := by
  decide
